import Mathlib

/- Verification of `DecisionLattice_evaluation/decision_tree_structure.py`:
   decision partially ordered sets of classification rules and their conversion
   to concept lattices.  The decision-structure code itself is translated
   directly; the external fcapy collaborators (the ordered-set primitive,
   formal contexts, formal concepts, concept lattices) are modelled from the
   specification, as noted on each such definition.  Python exceptions are
   modelled with `Except`. -/

deriving instance DecidableEq for Except

/-- Python exception outcomes relevant to the translated code. -/
inductive Err where
  | valueError
  | assertionError
  | notImplementedError
  | keyError
  | indexError
  | duplicateError
  deriving DecidableEq

/-- Source `compare_set_function(a, b)`: computes `set(b) & set(a) == set(b)`.
Premise iterables are modelled as lists of attribute indices; `set(-)` is
`List.toFinset`. -/
def compare_set_function (a b : List Nat) : Bool :=
  decide (b.toFinset ∩ a.toFinset = b.toFinset)

/-- Source class `ClassificationRule`: an immutable (premise, target) pair.
Its `__eq__`/`__hash__` are structural over both components, which matches the
structural equality of the Lean structure. -/
structure ClassificationRule (P T : Type) where
  premise : P
  target : T
  deriving DecidableEq

/-- Source `compare_premise_function(a, b)`: compares two rules' premises with
`compare_set_function`. -/
def compare_premise_function {T : Type} (a b : ClassificationRule (List Nat) T) : Bool :=
  compare_set_function a.premise b.premise

/-- First index of `x` in a list, or `none` when absent: the lookup behaviour of
Python list indexing used by the ordered-set primitive's element-to-index map. -/
def listIndexOf? {α : Type} [DecidableEq α] : List α → α → Option Nat
  | [], _ => none
  | y :: ys, x => if y = x then some 0 else (listIndexOf? ys x).map (· + 1)

/-- Modelled from the spec: the external ordered-set primitive (fcapy `POSet`)
stores a sequence of unique elements together with a user-supplied
less-or-equal predicate (spec §2, §6).  Its memoization caches are derived
data and are not part of the state. -/
structure POSet (α : Type) where
  elements : List α
  leq : α → α → Bool

/-- Modelled from the spec: `index(element)` of the primitive.  `none` models
the primitive's lookup failure on an absent element, which propagates to
callers unchanged (spec §7, §9). -/
def POSet.index {α : Type} [DecidableEq α] (p : POSet α) (x : α) : Option Nat :=
  listIndexOf? p.elements x

/-- Modelled from the spec: `add(element)` of the primitive fails when the
element is already present (elements are unique, and a duplicate add is an
error that propagates, spec §2, §4.2, §7), otherwise appends it. -/
def POSet.add {α : Type} [DecidableEq α] (p : POSet α) (x : α) : Except Err (POSet α) :=
  if x ∈ p.elements then .error .duplicateError
  else .ok ⟨p.elements ++ [x], p.leq⟩

/-- Modelled from the spec: positional deletion on the primitive; an
out-of-range key fails before any mutation (spec §6). -/
def POSet.delItem {α : Type} (p : POSet α) (k : Nat) : Except Err (POSet α) :=
  if k < p.elements.length then .ok ⟨p.elements.eraseIdx k, p.leq⟩
  else .error .indexError

/-- Modelled from the spec: `sub_elements(i)` — indices of the elements
strictly below element `i` in the order (spec §4.2, §6). -/
def POSet.subElems {α : Type} [Inhabited α] (p : POSet α) (i : Nat) : Finset Nat :=
  (Finset.range p.elements.length).filter
    (fun j => j ≠ i ∧ p.leq (p.elements.getD j default) (p.elements.getD i default) = true)

/-- Modelled from the spec: `direct_sub_elements(i)` — the covering relation:
sub-elements with no intermediate element in between (spec §4.2, glossary). -/
def POSet.directSubElems {α : Type} [Inhabited α] (p : POSet α) (i : Nat) : Finset Nat :=
  (p.subElems i).filter (fun j => ∀ k ∈ p.subElems i, j ∉ p.subElems k)

/-- Modelled from the spec: `bottom_elements` — the minimal elements of the
order, those with no sub-elements (spec §6). -/
def POSet.bottomElements {α : Type} [Inhabited α] (p : POSet α) : Finset Nat :=
  (Finset.range p.elements.length).filter (fun i => p.subElems i = ∅)

/-- Source class `DecisionPOSet`: an ordered set of premises paired with a
parallel list of targets.  The `_elements_to_index_map` cache is rebuilt in
full from `premises` after every mutation, so it is derived data and not part
of the state. -/
structure DecisionPOSet (P T : Type) where
  premises : POSet P
  targets : List T

/-- Source `DecisionPOSet.__init__`: accepts either a list of classification
rules or a (premises, targets) pair, raising `ValueError` when neither form is
complete; builds the premise order from the given elements and the supplied
comparison function (passing a prebuilt order carries the same data here);
then asserts that the premises are pairwise distinct
(`len(set(premises)) == len(premises)`). -/
def DecisionPOSet.make {P T : Type} [DecidableEq P]
    (classification_rules : Option (List (ClassificationRule P T)))
    (premises : Option (List P)) (targets : Option (List T))
    (leq_premise_func : P → P → Bool) : Except Err (DecisionPOSet P T) :=
  let pt : Except Err (List P × List T) :=
    match classification_rules with
    | some crules => .ok (crules.map (·.premise), crules.map (·.target))
    | none =>
      match premises, targets with
      | some ps, some ts => .ok (ps, ts)
      | _, _ => .error .valueError
  match pt with
  | .error e => .error e
  | .ok (ps, ts) =>
    if ps.dedup.length = ps.length then .ok ⟨⟨ps, leq_premise_func⟩, ts⟩
    else .error .assertionError

/-- Source `DecisionPOSet.index`: look the rule's premise up in the premise
order (the primitive's lookup failure on an absent premise propagates as an
error, and `self._targets[p_i]` on a desynchronized object raises as well),
then compare the stored target; a mismatching target yields the `none`
sentinel. -/
def DecisionPOSet.index {P T : Type} [DecidableEq P] [DecidableEq T]
    (dp : DecisionPOSet P T) (element : ClassificationRule P T) :
    Except Err (Option Nat) :=
  match dp.premises.index element.premise with
  | none => .error .keyError
  | some p_i =>
    match dp.targets[p_i]? with
    | none => .error .indexError
    | some t => if t = element.target then .ok (some p_i) else .ok none

/-- Source `DecisionPOSet.add`: add the premise to the premise order (a failure
there leaves the object untouched), then append the target.  Returns the state
of the object after the call together with the call's outcome. -/
def DecisionPOSet.addS {P T : Type} [DecidableEq P] (dp : DecisionPOSet P T)
    (element : ClassificationRule P T) : DecisionPOSet P T × Except Err Unit :=
  match dp.premises.add element.premise with
  | .error e => (dp, .error e)
  | .ok ps => (⟨ps, dp.targets ++ [element.target]⟩, .ok ())

/-- Source `DecisionPOSet.__delitem__`: delete position `key` from the
premises, then from the targets.  A failure of the second deletion would leave
the first one applied, which the returned state reflects. -/
def DecisionPOSet.delItemS {P T : Type} (dp : DecisionPOSet P T) (key : Nat) :
    DecisionPOSet P T × Except Err Unit :=
  match dp.premises.delItem key with
  | .error e => (dp, .error e)
  | .ok ps =>
    if key < dp.targets.length then (⟨ps, dp.targets.eraseIdx key⟩, .ok ())
    else ({ dp with premises := ps }, .error .indexError)

/-- Source `DecisionPOSet.__len__`: the number of premises. -/
def DecisionPOSet.length {P T : Type} (dp : DecisionPOSet P T) : Nat :=
  dp.premises.elements.length

/-- Source `DecisionPOSet.__and__`: unconditionally raises
`NotImplementedError`. -/
def DecisionPOSet.and {P T : Type} (_self _other : DecisionPOSet P T) : Except Err Unit :=
  .error .notImplementedError

/-- Source `DecisionPOSet.__or__`: unconditionally raises
`NotImplementedError`. -/
def DecisionPOSet.or {P T : Type} (_self _other : DecisionPOSet P T) : Except Err Unit :=
  .error .notImplementedError

/-- Source `DecisionPOSet.__xor__`: unconditionally raises
`NotImplementedError`. -/
def DecisionPOSet.xor {P T : Type} (_self _other : DecisionPOSet P T) : Except Err Unit :=
  .error .notImplementedError

/-- Source `DecisionPOSet.__sub__`: unconditionally raises
`NotImplementedError`. -/
def DecisionPOSet.sub {P T : Type} (_self _other : DecisionPOSet P T) : Except Err Unit :=
  .error .notImplementedError

/-- Source `DecisionPOSet.__eq__`: unconditionally raises
`NotImplementedError`. -/
def DecisionPOSet.eq {P T : Type} (_self _other : DecisionPOSet P T) : Except Err Unit :=
  .error .notImplementedError

/-- Source `DecisionPOSet.trace_element`: unconditionally raises
`NotImplementedError`. -/
def DecisionPOSet.trace_element {P T : Type} (_self : DecisionPOSet P T)
    (_element : ClassificationRule P T) (_direction : Nat) : Except Err Unit :=
  .error .notImplementedError

/-- Source class `DecisionTree(DecisionPOSet, BinaryTree)`: a structural
refinement of `DecisionPOSet` with no new state or behaviour of its own
(spec §4.3); the binary-tree shape is validated by the external primitive. -/
abbrev DecisionTree (P T : Type) := DecisionPOSet P T

/-- Modelled from the spec: a formal context exposes ordered object and
attribute name sequences, the two derivation operators, and a stable
fingerprint (spec §6).  Names are modelled as natural numbers and the
incidence relation as a Boolean predicate. -/
structure FormalContext where
  object_names : List Nat
  attribute_names : List Nat
  incidence : Nat → Nat → Bool
  hash_val : Nat

/-- Modelled from the spec: `hash_fixed()` — the context's stable fingerprint
(spec §6). -/
def FormalContext.hash_fixed (ctx : FormalContext) : Nat := ctx.hash_val

/-- Modelled from the spec: `extension(attribute_set)` — the objects having
all the given attributes (spec §6, glossary). -/
def FormalContext.extension (ctx : FormalContext) (p : List Nat) : List Nat :=
  ctx.object_names.filter (fun g => p.all (fun m => ctx.incidence g m))

/-- Modelled from the spec: `intention(object_set)` — the attributes common to
all the given objects (spec §6, glossary). -/
def FormalContext.intention (ctx : FormalContext) (objs : List Nat) : List Nat :=
  ctx.attribute_names.filter (fun m => objs.all (fun g => ctx.incidence g m))

/-- Modelled from the spec: a formal concept carries its extent and intent both
as index tuples and as name sequences, plus the context fingerprint (spec §6). -/
structure FormalConcept where
  extent_i : List Nat
  extent : List Nat
  intent_i : List Nat
  intent : List Nat
  context_hash : Nat
  deriving DecidableEq

/-- Modelled from the spec: a concept lattice is a concept list plus a map from
each concept index to the set of its direct sub-concept indices (spec §6);
the map's keys here are the positions `0..n-1` of the list. -/
structure ConceptLattice where
  concepts : List FormalConcept
  subconcepts_dict : List (Finset Nat)
  deriving DecidableEq

/-- Source `concept_lattice_from_decision_tree`, lines 176-191: the part of the
conversion after the copied premise order has been extended with the full
attribute set.  `premises` is the extended copy, `dtPremises` the tree's own
premise order (used for the sub-element adjacency and the bottom elements).
Python's raising `list.index` in the name-to-index translation is modelled
with a defaulted lookup: extents and intents are sublists of the respective
name lists, so the fallback is unreachable. -/
def convRest (ctx : FormalContext) (premises dtPremises : POSet (List Nat)) :
    ConceptLattice :=
  let extents := premises.elements.map ctx.extension
  let intents := extents.map ctx.intention
  let extents_i := extents.map (fun ext_ => ext_.map (fun g => (listIndexOf? ctx.object_names g).getD 0))
  let intents_i := intents.map (fun int_ => int_.map (fun m => (listIndexOf? ctx.attribute_names m).getD 0))
  let context_hash := ctx.hash_fixed
  let concepts := (List.range premises.elements.length).map (fun c_i =>
    (⟨extents_i.getD c_i [], extents.getD c_i [], intents_i.getD c_i [],
      intents.getD c_i [], context_hash⟩ : FormalConcept))
  let bc_i := concepts.length - 1
  let sbc_dict := (List.range dtPremises.elements.length).map (fun el_i =>
    if el_i ∈ dtPremises.bottomElements then ({bc_i} : Finset Nat)
    else dtPremises.directSubElems el_i)
  ⟨concepts, sbc_dict⟩

/-- Source `concept_lattice_from_decision_tree`: deep-copy the tree's premise
order, add the synthetic premise equal to the full attribute set (a failure of
the add propagates), compute the concepts and the rewired adjacency, and
assemble the lattice.  The deep copy makes the add a pure extension of the
tree's premise list here; `convH` below makes the object mutation explicit. -/
def concept_lattice_from_decision_tree (ctx : FormalContext)
    (dt : DecisionTree (List Nat) Nat) : Except Err ConceptLattice :=
  match dt.premises.add ctx.attribute_names with
  | .error e => .error e
  | .ok premises => .ok (convRest ctx premises dt.premises)

/-- A default premise order for defaulted heap lookups. -/
def emptyPOSet : POSet (List Nat) := ⟨[], fun _ _ => false⟩

/-- A store of premise-order objects and of target lists; references are list
positions.  Used to make explicit which object
`concept_lattice_from_decision_tree` mutates. -/
structure ConvHeap where
  posets : List (POSet (List Nat))
  targetLists : List (List Nat)

/-- Source `concept_lattice_from_decision_tree` with the object store made
explicit: line 173 allocates a fresh deep copy of the tree's premise order,
line 174 mutates that copy in place, and every later line only reads (the
sub-element dictionary on line 187 is itself deep-copied before rewiring).
`premRef` is the reference held by `dt` to its premise-order object. -/
def convH (ctx : FormalContext) (h : ConvHeap) (premRef : Nat) :
    ConvHeap × Except Err ConceptLattice :=
  let dtP := h.posets.getD premRef emptyPOSet
  let pRef := h.posets.length
  let h1 : ConvHeap := ⟨h.posets ++ [dtP], h.targetLists⟩
  match (h1.posets.getD pRef emptyPOSet).add ctx.attribute_names with
  | .error e => (h1, .error e)
  | .ok p2 =>
    let h2 : ConvHeap := ⟨h1.posets.set pRef p2, h1.targetLists⟩
    (h2, .ok (convRest ctx (h2.posets.getD pRef emptyPOSet)
                           (h2.posets.getD premRef emptyPOSet)))

/-- A concrete formal context: objects `10, 11, 12`, attributes `0, 1`;
object `10` has both attributes, `11` has attribute `0`, `12` has none. -/
def ctxW : FormalContext :=
  ⟨[10, 11, 12], [0, 1], fun g m => g == 10 || (g == 11 && m == 0), 42⟩

/-- A concrete decision tree with premises `{0}` and `{1}` and targets `5`, `6`. -/
def dtW : DecisionTree (List Nat) Nat :=
  ⟨⟨[[0], [1]], compare_set_function⟩, [5, 6]⟩

/-- A concrete decision poset with premises `{0}` and `{0,1}` and targets `5`, `6`. -/
def dpW : DecisionPOSet (List Nat) Nat :=
  ⟨⟨[[0], [0, 1]], compare_set_function⟩, [5, 6]⟩

/-- A concrete decision tree whose only premise equals the full attribute set
of `ctxW`. -/
def dtDup : DecisionTree (List Nat) Nat :=
  ⟨⟨[[0, 1]], compare_set_function⟩, [5]⟩

/-- The lattice produced from `ctxW` and `dtW`. -/
def LW : ConceptLattice :=
  (concept_lattice_from_decision_tree ctxW dtW).toOption.getD ⟨[], []⟩

/-- The first concept of `LW`. -/
def cW : FormalConcept := LW.concepts.getD 0 ⟨[], [], [], [], 0⟩

/-- A concrete heap holding `dtW`'s premise order and target list. -/
def heapW : ConvHeap := ⟨[dtW.premises], [dtW.targets]⟩

/-- An absent element has no index. -/
theorem listIndexOf?_eq_none {α : Type} [DecidableEq α] :
    ∀ (l : List α) (x : α), x ∉ l → listIndexOf? l x = none
  | [], _, _ => rfl
  | y :: ys, x, hx => by
    have h1 : ¬ y = x := fun h => hx (h ▸ List.mem_cons_self y ys)
    have h2 : x ∉ ys := fun h => hx (List.mem_cons_of_mem y h)
    simp [listIndexOf?, h1, listIndexOf?_eq_none ys x h2]

/-- In a duplicate-free list, the element found at position `i` has index `i`. -/
theorem listIndexOf?_of_nodup {α : Type} [DecidableEq α] :
    ∀ (l : List α) (x : α) (i : Nat), l.Nodup → l[i]? = some x →
      listIndexOf? l x = some i
  | [], x, i, _, h => by simp at h
  | y :: ys, x, i, hnd, h => by
    obtain ⟨hy, hys⟩ := List.nodup_cons.mp hnd
    cases i with
    | zero =>
      have hyx : y = x := by simpa using h
      simp [listIndexOf?, hyx]
    | succ n =>
      have h' : ys[n]? = some x := by simpa [List.getElem?_cons_succ] using h
      have hxmem : x ∈ ys := by
        obtain ⟨hlt, hget⟩ := List.getElem?_eq_some.mp h'
        exact hget ▸ List.getElem_mem hlt
      have hne : ¬ y = x := fun hyx => hy (hyx ▸ hxmem)
      simp [listIndexOf?, hne, listIndexOf?_of_nodup ys x n hys h']

/-- Appending a fresh element puts its index at the previous length. -/
theorem listIndexOf?_append_fresh {α : Type} [DecidableEq α] :
    ∀ (l : List α) (x : α), x ∉ l → listIndexOf? (l ++ [x]) x = some l.length
  | [], x, _ => by simp [listIndexOf?]
  | y :: ys, x, hx => by
    have h1 : ¬ y = x := fun h => hx (h ▸ List.mem_cons_self y ys)
    have h2 : x ∉ ys := fun h => hx (List.mem_cons_of_mem y h)
    simp [listIndexOf?, h1, listIndexOf?_append_fresh ys x h2]

/-- The Python uniqueness check `len(set(l)) == len(l)` holds exactly for
duplicate-free lists. -/
theorem dedup_length_iff {α : Type} [DecidableEq α] (l : List α) :
    l.dedup.length = l.length ↔ l.Nodup := by
  constructor
  · intro h
    have := (List.dedup_sublist l).eq_of_length h
    exact this ▸ List.nodup_dedup l
  · intro h
    rw [List.Nodup.dedup h]

/-- C1 counterexample: on `dpW` (premises `{0}`, `{0,1}`), looking up a rule
with the absent premise `[1]` propagates the primitive's lookup failure
instead of returning the "not found" sentinel `None`. -/
theorem claimC1_counterexample :
    dpW.index ⟨[1], 5⟩ = .error .keyError ∧ dpW.index ⟨[1], 5⟩ ≠ .ok none := by
  decide

/-- C1 (amended): for a well-formed decision poset, `index` returns `i` when
the premise and target at position `i` both match the rule's; it returns the
"not found" sentinel when the premise occurs at some position but is paired
with a different target; and when the premise is absent it propagates the
primitive's lookup failure (raises) rather than returning the sentinel. -/
theorem claimC1_theorem {P T : Type} [DecidableEq P] [DecidableEq T]
    (dp : DecisionPOSet P T) (r : ClassificationRule P T)
    (hnd : dp.premises.elements.Nodup)
    (hsync : dp.targets.length = dp.premises.elements.length) :
    (∀ i : Nat, dp.premises.elements[i]? = some r.premise →
      dp.targets[i]? = some r.target → dp.index r = .ok (some i)) ∧
    (∀ i : Nat, dp.premises.elements[i]? = some r.premise →
      dp.targets[i]? ≠ some r.target → dp.index r = .ok none) ∧
    (r.premise ∉ dp.premises.elements → dp.index r = .error .keyError) := by
  refine ⟨?_, ?_, ?_⟩
  · intro i hp ht
    have hidx : listIndexOf? dp.premises.elements r.premise = some i :=
      listIndexOf?_of_nodup _ _ _ hnd hp
    simp [DecisionPOSet.index, POSet.index, hidx, ht]
  · intro i hp ht
    have hidx : listIndexOf? dp.premises.elements r.premise = some i :=
      listIndexOf?_of_nodup _ _ _ hnd hp
    have hi : i < dp.targets.length := by
      have := (List.getElem?_eq_some.mp hp).1
      omega
    cases hts : dp.targets[i]? with
    | none =>
      exact absurd (List.getElem?_eq_none_iff.mp hts) (by omega)
    | some t =>
      have hne : ¬ t = r.target := fun h => ht (h ▸ hts)
      simp [DecisionPOSet.index, POSet.index, hidx, hts, hne]
  · intro habs
    simp [DecisionPOSet.index, POSet.index, listIndexOf?_eq_none _ _ habs]

/-- C1 witness: the amended theorem applied to `dpW` and the rule
`({0}, 5)`, found at position `0`. -/
theorem claimC1_witness :
    dpW.premises.elements.Nodup ∧
    dpW.targets.length = dpW.premises.elements.length ∧
    dpW.index ⟨[0], 5⟩ = .ok (some 0) :=
  ⟨by decide, by decide,
    (claimC1_theorem dpW ⟨[0], 5⟩ (by decide) (by decide)).1 0 (by decide) (by decide)⟩

/-- C7: the set-algebra operators, equality between two decision posets, and
element tracing all raise `NotImplementedError` on every input; none of them
returns a value. -/
theorem claimC7_theorem {P T : Type} (dp other : DecisionPOSet P T)
    (e : ClassificationRule P T) (d : Nat) :
    dp.and other = .error .notImplementedError ∧
    dp.or other = .error .notImplementedError ∧
    dp.xor other = .error .notImplementedError ∧
    dp.sub other = .error .notImplementedError ∧
    dp.eq other = .error .notImplementedError ∧
    dp.trace_element e d = .error .notImplementedError :=
  ⟨rfl, rfl, rfl, rfl, rfl, rfl⟩

/-- C10: `compare_set_function a b` decides reverse set inclusion — it is
`true` exactly when `set(b) ⊆ set(a)`; `compare_premise_function` applies it
to the two rules' premises; and on the singleton `{0}` versus its superset
`{0,1}`, `compare_set_function {0} {0,1}` is `false` while
`compare_set_function {0,1} {0}` is `true`. -/
theorem claimC10_theorem :
    (∀ a b : List Nat, compare_set_function a b = true ↔ b.toFinset ⊆ a.toFinset) ∧
    (∀ r1 r2 : ClassificationRule (List Nat) Nat,
      compare_premise_function r1 r2 = compare_set_function r1.premise r2.premise) ∧
    compare_set_function [0] [0, 1] = false ∧
    compare_set_function [0, 1] [0] = true := by
  refine ⟨?_, fun r1 r2 => rfl, by decide, by decide⟩
  intro a b
  simp [compare_set_function, Finset.inter_eq_left]

/-- C10 witness: the inclusion characterization applied to the concrete lists
`[3, 4]` and `[3]`. -/
theorem claimC10_witness : compare_set_function [3, 4] [3] = true :=
  (claimC10_theorem.1 [3, 4] [3]).mpr (by decide)

/-- A successful primitive `add` means the element was fresh and is appended. -/
theorem POSet.add_ok {α : Type} [DecidableEq α] (p : POSet α) (x : α) (q : POSet α)
    (h : p.add x = .ok q) : x ∉ p.elements ∧ q.elements = p.elements ++ [x] := by
  by_cases hx : x ∈ p.elements
  · simp [POSet.add, hx] at h
  · simp [POSet.add, hx] at h
    exact ⟨hx, by rw [← h]⟩

/-- A successful primitive deletion means the key was in range and the element
at that position is removed. -/
theorem POSet.delItem_ok {α : Type} (p : POSet α) (k : Nat) (q : POSet α)
    (h : p.delItem k = .ok q) :
    k < p.elements.length ∧ q.elements = p.elements.eraseIdx k := by
  by_cases hk : k < p.elements.length
  · simp [POSet.delItem, hk] at h
    exact ⟨hk, by rw [← h]⟩
  · simp [POSet.delItem, hk] at h

/-- C8: construction fails with `ValueError` whenever no rule list is given and
the (premises, targets) pair is incomplete, and with an `AssertionError`
whenever the supplied premises contain a duplicate; in both cases the `Except`
error carries no partial object. -/
theorem claimC8_theorem {P T : Type} [DecidableEq P]
    (ps : List P) (ts : List T) (leq : P → P → Bool) :
    (DecisionPOSet.make (P := P) (T := T) none none none leq = .error .valueError) ∧
    (DecisionPOSet.make none (some ps) (none (α := List T)) leq = .error .valueError) ∧
    (DecisionPOSet.make (P := P) none none (some ts) leq = .error .valueError) ∧
    (¬ ps.Nodup →
      DecisionPOSet.make none (some ps) (some ts) leq = .error .assertionError) ∧
    (∀ crules : List (ClassificationRule P T), ¬ (crules.map (·.premise)).Nodup →
      DecisionPOSet.make (some crules) none none leq = .error .assertionError) := by
  refine ⟨rfl, rfl, rfl, ?_, ?_⟩
  · intro hnd
    have hd : ¬ ps.dedup.length = ps.length := fun h => hnd ((dedup_length_iff ps).mp h)
    simp [DecisionPOSet.make, hd]
  · intro crules hnd
    have hd : ¬ (crules.map (·.premise)).dedup.length = crules.length := by
      intro h
      exact hnd ((dedup_length_iff _).mp (by simpa using h))
    simp [DecisionPOSet.make, hd]

/-- C8 witness: the theorem applied at a missing-arguments call and at a
duplicate-premise call. -/
theorem claimC8_witness :
    ¬ ([[0], [0]] : List (List Nat)).Nodup ∧
    DecisionPOSet.make (P := List Nat) (T := Nat) none none none compare_set_function
      = .error .valueError ∧
    DecisionPOSet.make none (some [[0], [0]]) (some [1, 2]) compare_set_function
      = .error .assertionError :=
  ⟨by decide,
    (claimC8_theorem (P := List Nat) (T := Nat) [] [] compare_set_function).1,
    (claimC8_theorem [[0], [0]] [1, 2] compare_set_function).2.2.2.1 (by decide)⟩

/-- C4 counterexample: the constructor never validates that a supplied
(premises, targets) pair has equal lengths, so a desynchronized decision poset
is successfully constructed from one premise and zero targets. -/
theorem claimC4_counterexample :
    (DecisionPOSet.make (T := Nat) none (some [[0]]) (some []) compare_set_function).map
      (fun dp => dp.premises.elements.length == dp.targets.length) = .ok false := by
  decide

/-- C4 (amended): `len(premises) == len(targets)` holds for every decision
poset constructed from a rule list or from an equal-length (premises, targets)
pair, and both `add` and `__delitem__` preserve it — also when they fail
partway, since the premise order is validated before the targets are touched;
construction from an unequal-length pair, however, succeeds without
validation and violates it. -/
theorem claimC4_theorem {P T : Type} [DecidableEq P] (dp : DecisionPOSet P T)
    (hsync : dp.targets.length = dp.premises.elements.length) :
    (∀ r : ClassificationRule P T,
      (dp.addS r).1.targets.length = (dp.addS r).1.premises.elements.length) ∧
    (∀ k : Nat,
      (dp.delItemS k).1.targets.length = (dp.delItemS k).1.premises.elements.length) ∧
    (∀ (crules : List (ClassificationRule P T)) (leq : P → P → Bool)
        (dp' : DecisionPOSet P T),
      DecisionPOSet.make (some crules) none none leq = .ok dp' →
      dp'.targets.length = dp'.premises.elements.length) ∧
    (∀ (ps : List P) (ts : List T) (leq : P → P → Bool) (dp' : DecisionPOSet P T),
      ps.length = ts.length →
      DecisionPOSet.make none (some ps) (some ts) leq = .ok dp' →
      dp'.targets.length = dp'.premises.elements.length) := by
  refine ⟨?_, ?_, ?_, ?_⟩
  · intro r
    cases hadd : dp.premises.add r.premise with
    | error e => simp [DecisionPOSet.addS, hadd, hsync]
    | ok ps =>
      obtain ⟨-, hel⟩ := POSet.add_ok _ _ _ hadd
      simp [DecisionPOSet.addS, hadd, hel, hsync]
  · intro k
    cases hdel : dp.premises.delItem k with
    | error e => simp [DecisionPOSet.delItemS, hdel, hsync]
    | ok ps =>
      obtain ⟨hk, hel⟩ := POSet.delItem_ok _ _ _ hdel
      have hk2 : k < dp.targets.length := by omega
      simp only [DecisionPOSet.delItemS, hdel, hk2, if_true]
      simp [hel, List.length_eraseIdx, hk, hk2, hsync]
  · intro crules leq dp' h
    by_cases hd : (crules.map (·.premise)).dedup.length = crules.length
    · simp [DecisionPOSet.make, hd] at h
      rw [← h]
      simp
    · simp [DecisionPOSet.make, hd] at h
  · intro ps ts leq dp' hlen h
    by_cases hd : ps.dedup.length = ps.length
    · simp [DecisionPOSet.make, hd] at h
      rw [← h]
      simpa using hlen.symm
    · simp [DecisionPOSet.make, hd] at h

/-- C4 witness: the preservation part applied to `dpW` and a fresh rule. -/
theorem claimC4_witness :
    dpW.targets.length = dpW.premises.elements.length ∧
    (dpW.addS ⟨[2], 7⟩).1.targets.length = (dpW.addS ⟨[2], 7⟩).1.premises.elements.length :=
  ⟨by decide, (claimC4_theorem dpW (by decide)).1 ⟨[2], 7⟩⟩

/-- C9: a successful `add` of a rule whose premise is fresh grows the decision
poset by exactly one, makes the new rule retrievable by `index` at the last
position, and leaves every previously valid index mapped to its original
premise/target pair. -/
theorem claimC9_theorem {P T : Type} [DecidableEq P] [DecidableEq T]
    (dp : DecisionPOSet P T) (r : ClassificationRule P T)
    (hfresh : r.premise ∉ dp.premises.elements)
    (hsync : dp.targets.length = dp.premises.elements.length) :
    (dp.addS r).2 = .ok () ∧
    (dp.addS r).1.length = dp.length + 1 ∧
    (dp.addS r).1.index r = .ok (some dp.length) ∧
    (∀ i : Nat, i < dp.length →
      (dp.addS r).1.premises.elements[i]? = dp.premises.elements[i]? ∧
      (dp.addS r).1.targets[i]? = dp.targets[i]?) := by
  have hadd : dp.premises.add r.premise
      = .ok ⟨dp.premises.elements ++ [r.premise], dp.premises.leq⟩ := by
    simp [POSet.add, hfresh]
  refine ⟨?_, ?_, ?_, ?_⟩
  · simp [DecisionPOSet.addS, hadd]
  · simp [DecisionPOSet.addS, hadd, DecisionPOSet.length]
  · have hidx : listIndexOf? (dp.premises.elements ++ [r.premise]) r.premise
        = some dp.premises.elements.length :=
      listIndexOf?_append_fresh _ _ hfresh
    have htg : (dp.targets ++ [r.target])[dp.premises.elements.length]? = some r.target := by
      rw [← hsync]
      exact List.getElem?_concat_length _ _
    simp [DecisionPOSet.addS, hadd, DecisionPOSet.index, POSet.index,
      DecisionPOSet.length, hidx, htg]
  · intro i hi
    have hi' : i < dp.premises.elements.length := hi
    have hi2 : i < dp.targets.length := by omega
    constructor
    · simp [DecisionPOSet.addS, hadd, List.getElem?_append, hi']
    · simp [DecisionPOSet.addS, hadd, List.getElem?_append, hi2]

/-- C9 witness: adding the fresh rule `({2}, 9)` to `dpW` and retrieving it. -/
theorem claimC9_witness :
    ([2] : List Nat) ∉ dpW.premises.elements ∧
    dpW.targets.length = dpW.premises.elements.length ∧
    (dpW.addS ⟨[2], 9⟩).1.index ⟨[2], 9⟩ = .ok (some dpW.length) :=
  ⟨by decide, by decide, (claimC9_theorem dpW ⟨[2], 9⟩ (by decide) (by decide)).2.2.1⟩

/-- A successful conversion means the synthetic premise was fresh and the
lattice is `convRest` of the extended copy and the original premise order. -/
theorem conv_ok {ctx : FormalContext} {dt : DecisionTree (List Nat) Nat}
    {L : ConceptLattice} (hL : concept_lattice_from_decision_tree ctx dt = .ok L) :
    ctx.attribute_names ∉ dt.premises.elements ∧
    L = convRest ctx ⟨dt.premises.elements ++ [ctx.attribute_names], dt.premises.leq⟩
          dt.premises := by
  by_cases hmem : ctx.attribute_names ∈ dt.premises.elements
  · simp [concept_lattice_from_decision_tree, POSet.add, hmem] at hL
  · simp [concept_lattice_from_decision_tree, POSet.add, hmem] at hL
    exact ⟨hmem, hL.symm⟩

/-- `convRest` produces one concept per element of the extended premise order. -/
theorem convRest_concepts_length (ctx : FormalContext) (ps dtp : POSet (List Nat)) :
    (convRest ctx ps dtp).concepts.length = ps.elements.length := by
  simp [convRest]

/-- The adjacency produced by `convRest`: the deep-copied direct-sub-element
dictionary of the tree order, with every bottom element rewired to the index
of the last concept. -/
theorem convRest_sbc (ctx : FormalContext) (ps dtp : POSet (List Nat)) :
    (convRest ctx ps dtp).subconcepts_dict = (List.range dtp.elements.length).map
      (fun el_i => if el_i ∈ dtp.bottomElements
        then ({ps.elements.length - 1} : Finset Nat)
        else dtp.directSubElems el_i) := by
  simp [convRest]

/-- Every concept built by `convRest` stores the closure of its extent as its
intent and carries the context fingerprint. -/
theorem convRest_concepts_closed (ctx : FormalContext) (ps dtp : POSet (List Nat)) :
    ∀ c ∈ (convRest ctx ps dtp).concepts,
      c.intent = ctx.intention c.extent ∧ c.context_hash = ctx.hash_fixed := by
  intro c hc
  simp only [convRest] at hc
  obtain ⟨c_i, hci, rfl⟩ := List.mem_map.mp hc
  have hlt : c_i < ps.elements.length := by
    simpa using List.mem_range.mp hci
  have hone : c_i < (ps.elements.map ctx.extension).length := by simpa using hlt
  constructor
  · show ((ps.elements.map ctx.extension).map ctx.intention).getD c_i []
      = ctx.intention ((ps.elements.map ctx.extension).getD c_i [])
    rw [List.getD_eq_getElem?_getD, List.getD_eq_getElem?_getD, List.getElem?_map,
      List.getElem?_eq_getElem hone]
    simp
  · rfl

/-- C2 counterexample: when the full attribute set of the context already
occurs among the tree's premises, adding it to the copied premise order fails,
so no lattice — in particular none with `len(premises) + 1` concepts — is
returned. -/
theorem claimC2_counterexample :
    (concept_lattice_from_decision_tree ctxW dtDup).map (fun L => L.concepts.length)
      ≠ .ok (dtDup.premises.elements.length + 1) ∧
    concept_lattice_from_decision_tree ctxW dtDup = .error .duplicateError := by
  decide

/-- C2 (amended): whenever the full attribute set of the context is not already
one of the tree's premises, the conversion succeeds and returns a lattice with
exactly `len(dt.premises) + 1` concepts; when it is already a premise, the
duplicate add on the copied premise order fails instead. -/
theorem claimC2_theorem (ctx : FormalContext) (dt : DecisionTree (List Nat) Nat)
    (hfree : ctx.attribute_names ∉ dt.premises.elements) :
    (concept_lattice_from_decision_tree ctx dt).map (fun L => L.concepts.length)
      = .ok (dt.premises.elements.length + 1) := by
  have hadd : dt.premises.add ctx.attribute_names
      = .ok ⟨dt.premises.elements ++ [ctx.attribute_names], dt.premises.leq⟩ := by
    simp [POSet.add, hfree]
  simp [concept_lattice_from_decision_tree, hadd, Except.map, convRest_concepts_length]

/-- C2 witness: converting `dtW` over `ctxW` yields `2 + 1` concepts. -/
theorem claimC2_witness :
    ctxW.attribute_names ∉ dtW.premises.elements ∧
    (concept_lattice_from_decision_tree ctxW dtW).map (fun L => L.concepts.length)
      = .ok (dtW.premises.elements.length + 1) :=
  ⟨by decide, claimC2_theorem ctxW dtW (by decide)⟩

/-- C3: in a returned lattice, every premise that is a bottom (minimal) element
of the tree's original order has exactly the synthetic full-attribute concept
(index `len(dt.premises)`) as its direct-sub-concept set, and every other
premise keeps the direct-sub-element set of the original tree order. -/
theorem claimC3_theorem (ctx : FormalContext) (dt : DecisionTree (List Nat) Nat)
    (L : ConceptLattice) (hL : concept_lattice_from_decision_tree ctx dt = .ok L) :
    L.subconcepts_dict.length = dt.premises.elements.length ∧
    ∀ i : Nat, i < dt.premises.elements.length →
      L.subconcepts_dict[i]? = some
        (if i ∈ dt.premises.bottomElements
          then ({dt.premises.elements.length} : Finset Nat)
          else dt.premises.directSubElems i) := by
  obtain ⟨hfree, rfl⟩ := conv_ok hL
  rw [convRest_sbc]
  constructor
  · simp
  · intro i hi
    rw [List.getElem?_map, List.getElem?_range hi]
    simp

/-- C3 witness: the theorem applied to the concrete conversion of `dtW`. -/
theorem claimC3_witness :
    concept_lattice_from_decision_tree ctxW dtW = .ok LW ∧
    LW.subconcepts_dict.length = dtW.premises.elements.length :=
  ⟨by decide, (claimC3_theorem ctxW dtW LW (by decide)).1⟩

/-- C5: every concept of a returned lattice satisfies
`context.intention(extent) == intent`, and all concepts carry the same
fingerprint `context.hash_fixed()`. -/
theorem claimC5_theorem (ctx : FormalContext) (dt : DecisionTree (List Nat) Nat)
    (L : ConceptLattice) (hL : concept_lattice_from_decision_tree ctx dt = .ok L) :
    ∀ c ∈ L.concepts, c.intent = ctx.intention c.extent ∧ c.context_hash = ctx.hash_fixed := by
  obtain ⟨-, rfl⟩ := conv_ok hL
  exact convRest_concepts_closed ctx _ _

/-- C5 witness: the first concept of the concrete lattice `LW` is closed and
fingerprinted. -/
theorem claimC5_witness :
    concept_lattice_from_decision_tree ctxW dtW = .ok LW ∧ cW ∈ LW.concepts ∧
    cW.intent = ctxW.intention cW.extent :=
  ⟨by decide, by decide, (claimC5_theorem ctxW dtW LW (by decide) cW (by decide)).1⟩

/-- C6: running the converter leaves the tree's premise-order object untouched
in the store — only the freshly allocated deep copy is ever written — and no
target list is modified, so the tree's premises and targets are identical
before and after the call. -/
theorem claimC6_theorem (ctx : FormalContext) (h : ConvHeap) (premRef : Nat)
    (hvalid : premRef < h.posets.length) :
    (convH ctx h premRef).1.posets[premRef]? = h.posets[premRef]? ∧
    (convH ctx h premRef).1.targetLists = h.targetLists := by
  have hne : h.posets.length ≠ premRef := by omega
  refine ⟨?_, ?_⟩ <;>
  · simp only [convH]
    split
    all_goals
      simp [List.getElem?_append, List.getElem?_set_ne hne, hvalid]

/-- C6 witness: the frame property on the concrete store holding `dtW`. -/
theorem claimC6_witness :
    0 < heapW.posets.length ∧
    (convH ctxW heapW 0).1.posets[0]? = heapW.posets[0]? ∧
    (convH ctxW heapW 0).1.targetLists = heapW.targetLists :=
  ⟨by decide, (claimC6_theorem ctxW heapW 0 (by decide)).1,
    (claimC6_theorem ctxW heapW 0 (by decide)).2⟩
